import Mathlib

/-!
Shallow embedding of the polling core of the `aws-playwright-ts` test
harness.

Time is a discrete wall clock (natural-number milliseconds).  Each remote
call is modelled by an environment function giving, per call, the call's
duration and its outcome (a transport error or a payload).  Awaited sleeps
advance the clock by their argument.  Loops are embedded with an explicit
iteration budget (`fuel`): `none` means the budget was too small to reach
the loop's own exit, and the theorems supply a sufficient budget
explicitly, so `some` results are exactly the behaviours of the source
loops.
-/

namespace AwsPlaywright

/-- Outcome of one `receiveMessages` remote call, as seen by the poller:
the wall-clock duration the awaited call took, and either a transport
error or the number of messages returned (`response.Messages.length`). -/
structure RecvResult (ε : Type) where
  dur : ℕ
  res : Except ε ℕ
  deriving Repr

/-- Error thrown by `waitForLambdaProcessing`
(`src/lambda-test-helper.ts`): either the propagated transport error of
the underlying read, or the `Error` built from the template string
`Timeout waiting for Lambda processing. Expected ... messages`. -/
inductive WaitError (ε : Type) where
  | transport (e : ε)
  | timeout (msg : String)
  deriving Repr, DecidableEq

/-- Exact message string of the timeout `Error` thrown at
`src/lambda-test-helper.ts:185`; its only interpolated datum is
`expectedMessageCount`. -/
def timeoutMessage (expected : ℕ) : String :=
  "Timeout waiting for Lambda processing. Expected " ++ toString expected
    ++ " messages"

/-- The `while (Date.now() - startTime < timeoutMs)` loop of
`waitForLambdaProcessing` (`src/lambda-test-helper.ts:178-183`).
`k` is the index of the next `receiveMessages` call, `t` the current
clock.  Returns the finishing time, the list of clock values at which
each read was issued, and the result: `.ok ()` when a read returned
exactly `expected` messages, `.error` for a propagated transport error or
the timeout throw.  `fuel` bounds the number of loop iterations. -/
def waitLoop (env : ℕ → RecvResult ε) (t0 expected timeoutMs : ℕ) :
    ℕ → ℕ → ℕ → Option (ℕ × List ℕ × Except (WaitError ε) Unit)
  | _, t, 0 =>
    if t - t0 < timeoutMs then none
    else some (t, [], .error (.timeout (timeoutMessage expected)))
  | k, t, fuel + 1 =>
    if t - t0 < timeoutMs then
      match (env k).res with
      | .error e => some (t + (env k).dur, [t], .error (.transport e))
      | .ok n =>
        if n = expected then some (t + (env k).dur, [t], .ok ())
        else
          (waitLoop env t0 expected timeoutMs (k + 1) (t + (env k).dur) fuel).map
            fun p => (p.1, t :: p.2.1, p.2.2)
    else some (t, [], .error (.timeout (timeoutMessage expected)))

/-- `waitForLambdaProcessing(queueUrl, expected, timeoutMs)` invoked at
clock `t0` (`src/lambda-test-helper.ts:170-186`): records
`startTime = Date.now()`, awaits the fixed
`setTimeout(resolve, 10000)` initial delay, then runs the poll loop. -/
def waitForLambdaProcessing (env : ℕ → RecvResult ε) (t0 expected timeoutMs fuel : ℕ) :
    Option (ℕ × List ℕ × Except (WaitError ε) Unit) :=
  waitLoop env t0 expected timeoutMs 0 (t0 + 10000) fuel

/-- Clock value at which the poll loop issues its `k`-th read: the first
read happens right after the fixed 10000 ms initial delay, and each
subsequent read starts when the previous awaited read resolves. -/
def recvTime (env : ℕ → RecvResult ε) (t0 : ℕ) : ℕ → ℕ
  | 0 => t0 + 10000
  | k + 1 => recvTime env t0 k + (env k).dur

/-- Outcome of one `FilterLogEventsCommand` remote call: duration of the
awaited `send`, and either a transport error or the returned
`response.events || []` list. -/
structure QryResult (ε η : Type) where
  dur : ℕ
  res : Except ε (List η)
  deriving Repr

/-- The `while (Date.now() - startTime < timeoutMs)` loop of
`CloudWatchLogsHelper.getLogEvents`
(`src/test-utilities/cloudwatch-logs-utils.ts:27-45`), where
`startTime = filter.startTime` and `timeoutMs = 30 * 1000`.  `env k t` is
the outcome of the `k`-th query, issued with window end bound
`endTime = t` (the clock when the iteration runs `Date.now()`).  Returns
the finishing time, the list of `endTime` bounds passed to the queries
issued, and either a propagated transport error or the returned event
list (`[]` exactly on the fall-through after the loop).  A non-matching
iteration awaits the fixed 1000 ms `setTimeout` before retrying. -/
def logLoop (env : ℕ → ℕ → QryResult ε η) (startTime : ℕ) :
    ℕ → ℕ → ℕ → Option (ℕ × List ℕ × Except ε (List η))
  | _, t, 0 =>
    if t - startTime < 30000 then none else some (t, [], .ok [])
  | k, t, fuel + 1 =>
    if t - startTime < 30000 then
      match (env k t).res with
      | .error e => some (t + (env k t).dur, [t], .error e)
      | .ok evs =>
        if 0 < evs.length then some (t + (env k t).dur, [t], .ok evs)
        else
          (logLoop env startTime (k + 1) (t + (env k t).dur + 1000) fuel).map
            fun p => (p.1, t :: p.2.1, p.2.2)
    else some (t, [], .ok [])

/-- `getLogEvents(lambdaFunction, filter)` invoked at clock `tcall`:
binds `startTime = filter.startTime`, `timeoutMs = 30000`, and runs the
poll loop starting at the invocation clock. -/
def getLogEvents (env : ℕ → ℕ → QryResult ε η) (startTime tcall fuel : ℕ) :
    Option (ℕ × List ℕ × Except ε (List η)) :=
  logLoop env startTime 0 tcall fuel

/-- Clock value at which the log loop issues its `k`-th query when every
earlier query came back empty: the first query is issued at the
invocation clock, and each retry waits out the query's own duration plus
the fixed 1000 ms sleep. -/
def queryTime (env : ℕ → ℕ → QryResult ε η) (tcall : ℕ) : ℕ → ℕ
  | 0 => tcall
  | k + 1 =>
    queryTime env tcall k
      + (env k (queryTime env tcall k)).dur + 1000

/-- The `purgeQueue` loop (`src/lambda-test-helper.ts:137-145`): read a
batch (`env k` is the `k`-th `receiveMessages` result, a list of receipt
handles), and while the batch is non-empty delete every entry of the
batch and read again.  Returns the receipt handles deleted, in deletion
order; `fuel` bounds the number of non-empty batches processed. -/
def purgeLoop (env : ℕ → List μ) : ℕ → ℕ → Option (List μ)
  | k, fuel =>
    if (env k).isEmpty then some []
    else
      match fuel with
      | 0 => none
      | fuel + 1 => (purgeLoop env (k + 1) fuel).map (env k ++ ·)

/-- `purgeQueue(queueUrl)`: the purge loop started at the first read. -/
def purgeQueue (env : ℕ → List μ) (fuel : ℕ) : Option (List μ) :=
  purgeLoop env 0 fuel

/-- The `for (let i = 0; i < maxTries; i++)` body of `waitForFile`
(`src/unnamed/part_003:23-28`): `ex i` tells whether the awaited
`fileExists(filePath)` check of iteration `i` finds the file; the loop
returns `true` at the first successful check and `false` once the try
budget `n` is exhausted. -/
def waitTries (ex : ℕ → Bool) : ℕ → ℕ → Bool
  | _, 0 => false
  | i, n + 1 => if ex i then true else waitTries ex (i + 1) n

/-- Number of iterations the JavaScript loop `for (let i = 0; i <
timeoutMs / 500; i++)` executes: `maxTries = timeoutMs / 500` is exact
(non-truncating) division of JavaScript numbers, modelled on `ℚ`, and a
natural `i` satisfies `i < maxTries` exactly when `i < ⌈timeoutMs/500⌉`
(see `mem_iff_lt_numTries`). -/
def numTries (timeoutMs : ℚ) : ℕ :=
  (⌈timeoutMs / 500⌉).toNat

/-- `waitForFile(filePath, timeoutMs)` (`src/unnamed/part_003:19-30`)
with the file-existence oracle `ex` abstracting `fs.exists` per try. -/
def waitForFile (ex : ℕ → Bool) (timeoutMs : ℚ) : Bool :=
  waitTries ex 0 (numTries timeoutMs)

/-- Justification that `numTries` counts exactly the iterations of the
source's `for` loop: `i` is an executed iteration index iff the rational
comparison `i < timeoutMs / 500` holds iff `i < numTries timeoutMs`. -/
theorem mem_iff_lt_numTries (timeoutMs : ℚ) (i : ℕ) :
    ((i : ℚ) < timeoutMs / 500) ↔ i < numTries timeoutMs := by
  rw [numTries, Int.lt_toNat]
  exact (Int.lt_ceil).symm

/-- JavaScript values that can appear as (or inside) a field of the
record passed to `DynamoDBTestHelper.toDynamoFormat`: strings, numbers
(integral, as exercised by the repository), booleans, arrays, nested
objects, and `null`/`undefined` (collapsed into one null value, which is
how the encoder treats them). -/
inductive JSVal where
  | str (s : String)
  | num (n : ℤ)
  | bool (b : Bool)
  | list (l : List JSVal)
  | obj (fields : List (String × JSVal))
  | null

/-- DynamoDB attribute values as built by `toDynamoFormat`
(`src/unnamed/part_002:243-268`): the closed tag table
`S` / `N` / `BOOL` / `L` / `M` / `NULL`. -/
inductive AttrVal where
  | S (s : String)
  | N (s : String)
  | BOOL (b : Bool)
  | L (l : List AttrVal)
  | M (fields : List (String × AttrVal))
  | NULL

/-- Decimal digit as a character, `48 + d` being the code point of the
digit `d`. -/
def digitToChar (d : ℕ) : Char := Char.ofNat (48 + d)

/-- Decimal digit string of a natural number, most significant digit
first, matching JavaScript `Number.prototype.toString` on naturals. -/
def natChars (n : ℕ) : List Char :=
  if n = 0 then ['0'] else ((Nat.digits 10 n).map digitToChar).reverse

/-- JavaScript `value.toString()` on an integral number: decimal digits
with a leading minus sign for negatives. -/
def numToString (i : ℤ) : String :=
  if i < 0 then String.mk ('-' :: natChars i.natAbs) else String.mk (natChars i.natAbs)

mutual
/-- One branch dispatch of the `if/else if` chain in `toDynamoFormat`
(`src/unnamed/part_002:246-265`) applied to a field value: string, number
(stringified), boolean, array (element-wise under `L`), object
(recursive under `M`), and `null`/`undefined` under `NULL`. -/
def encodeValue : JSVal → AttrVal
  | .str s => .S s
  | .num n => .N (numToString n)
  | .bool b => .BOOL b
  | .list l => .L (encodeElems l)
  | .obj o => .M (encodeFields o)
  | .null => .NULL

/-- The element lambda of the `{ L: value.map(v => ...) }` branch
(`src/unnamed/part_002:254-260`): primitives map to their tags, a nested
array or object maps to `{ M: toDynamoFormat(v) }` (a nested array is
passed through `toDynamoFormat`, i.e. through `Object.entries`, which
enumerates an array as index-string/element pairs), anything else maps
to the null tag. -/
def encodeElem : JSVal → AttrVal
  | .str s => .S s
  | .num n => .N (numToString n)
  | .bool b => .BOOL b
  | .list l => .M (encodeEntries 0 l)
  | .obj o => .M (encodeFields o)
  | .null => .NULL

/-- Element-wise image of `value.map(v => ...)` in the array branch. -/
def encodeElems : List JSVal → List AttrVal
  | [] => []
  | v :: vs => encodeElem v :: encodeElems vs

/-- `toDynamoFormat` applied to an array: `Object.entries` yields
index-string/element pairs `("0", e0), ("1", e1), ...`, each element then
converted by the field dispatch. -/
def encodeEntries : ℕ → List JSVal → List (String × AttrVal)
  | _, [] => []
  | i, v :: vs => (numToString (i : ℤ), encodeValue v) :: encodeEntries (i + 1) vs

/-- The `for (const [key, value] of Object.entries(data))` loop of
`toDynamoFormat`: each field's value converted by the branch dispatch,
keys kept. -/
def encodeFields : List (String × JSVal) → List (String × AttrVal)
  | [] => []
  | (k, v) :: fs => (k, encodeValue v) :: encodeFields fs
end

/-- `DynamoDBTestHelper.toDynamoFormat` (`src/unnamed/part_002:243-268`). -/
def toDynamoFormat (data : List (String × JSVal)) : List (String × AttrVal) :=
  encodeFields data

/-- Decimal digit value of a character. -/
def charToDigit (c : Char) : ℕ := c.toNat - 48

/-- Natural number denoted by a most-significant-first decimal digit
string. -/
def charsToNat (cs : List Char) : ℕ :=
  Nat.ofDigits 10 ((cs.map charToDigit).reverse)

/-- Integer denoted by a decimal string with optional leading minus. -/
def parseNum (s : String) : ℤ :=
  if s.data.head? = some '-' then -(charsToNat s.data.tail : ℤ)
  else (charsToNat s.data : ℤ)

mutual
/-- Modelled from the spec: the repository writes records through
`toDynamoFormat` but contains no decoder, and the spec's round-trip
property ("a record written via the key-value encoding and read back
decodes to a value equal to the original") refers to reading the stored
item back; this decoder inverts the closed tag table by the spec's own
field mapping (string tag to string, numeric tag parsed back from its
stringified form, boolean tag to boolean, list tag element-wise, map tag
recursively, null tag to null). -/
def decodeValue : AttrVal → JSVal
  | .S s => .str s
  | .N s => .num (parseNum s)
  | .BOOL b => .bool b
  | .L l => .list (decodeElems l)
  | .M m => .obj (decodeFields m)
  | .NULL => .null

/-- Modelled from the spec: element-wise decoding under the list tag. -/
def decodeElems : List AttrVal → List JSVal
  | [] => []
  | a :: as' => decodeValue a :: decodeElems as'

/-- Modelled from the spec: field-wise decoding under the map tag. -/
def decodeFields : List (String × AttrVal) → List (String × JSVal)
  | [] => []
  | (k, a) :: fs => (k, decodeValue a) :: decodeFields fs
end

/-- Modelled from the spec: reading a whole written item back. -/
def fromDynamoFormat (item : List (String × AttrVal)) : List (String × JSVal) :=
  decodeFields item

/-- Whether a value is of a primitive type in the sense of the spec's
round-trip property: string, number, boolean, or null. -/
def isPrimitive : JSVal → Bool
  | .str _ => true
  | .num _ => true
  | .bool _ => true
  | .null => true
  | _ => false

/-- Whether a value is a primitive, or a list/map of primitives: the
spec's "all primitive types and one level of list/map nesting". -/
def oneLevel : JSVal → Bool
  | .list l => l.all isPrimitive
  | .obj o => o.all fun p => isPrimitive p.2
  | v => isPrimitive v

/-- `Math.ceil(messageCount / concurrencyLevel)` on naturals
(`src/lambda-test-config.ts:145`); see `ceilDiv_charact` for the
justification that this is the ceiling of the exact division. -/
def ceilDiv (k c : ℕ) : ℕ := (k + c - 1) / c

/-- Justification that `ceilDiv` is the ceiling of exact division: for a
positive divisor it is the least `m` with `k ≤ m * c`. -/
theorem ceilDiv_charact (k c m : ℕ) (hc : 0 < c) :
    ceilDiv k c ≤ m ↔ k ≤ m * c := by
  unfold ceilDiv
  rw [Nat.div_le_iff_le_mul_add_pred hc, Nat.mul_comm]
  omega

/-- The slicing loop `for (let i = 0; i < messageCount; i += batchSize)`
of `testLoadPerformance` (`src/lambda-test-config.ts:148-151`), carried
on the not-yet-sliced suffix: each iteration takes
`messages.slice(i, i + batchSize)` and advances by `batchSize`; `fuel`
bounds the iteration count (the caller passes the list length, which
suffices for a positive batch size). -/
def sliceChunks (bs : ℕ) : ℕ → List α → List (List α)
  | _, [] => []
  | 0, _ :: _ => []
  | fuel + 1, x :: xs =>
    (x :: xs).take bs :: sliceChunks bs fuel ((x :: xs).drop bs)

/-- The batches built by `testLoadPerformance(messageCount,
concurrencyLevel)` over its generated message list, with
`batchSize = Math.ceil(messageCount / concurrencyLevel)`. -/
def testLoadBatches (msgs : List α) (c : ℕ) : List (List α) :=
  sliceChunks (ceilDiv msgs.length c) msgs.length msgs

/-- `LambdaTestHelper.sendMessages` (`src/lambda-test-helper.ts:99-106`):
one `sendMessage` remote call per message, sequentially in list order,
collecting the returned ids; `send` is the remote call. -/
def sendMessages (send : α → β) : List α → List β
  | [] => []
  | m :: ms => send m :: sendMessages send ms

/-! Helper lemmas about the queue-drain poll loop. -/

/-- With every read taking at least one tick (and at most `D`), a fuel
budget of the whole timeout suffices: the loop reaches one of its own
exits, and it finishes no later than `max t (t0 + timeoutMs + D)`. -/
theorem waitLoop_total (env : ℕ → RecvResult ε) (t0 expected timeoutMs D : ℕ)
    (hdur : ∀ k, 1 ≤ (env k).dur) (hD : ∀ k, (env k).dur ≤ D) :
    ∀ fuel k t, t0 ≤ t → timeoutMs ≤ t - t0 + fuel →
    ∃ tf tr r, waitLoop env t0 expected timeoutMs k t fuel = some (tf, tr, r)
      ∧ tf ≤ max t (t0 + timeoutMs + D) := by
  intro fuel
  induction fuel with
  | zero =>
    intro k t ht hfuel
    refine ⟨t, [], .error (.timeout (timeoutMessage expected)), ?_, ?_⟩
    · simp only [waitLoop]
      rw [if_neg (by omega)]
    · omega
  | succ fuel ih =>
    intro k t ht hfuel
    by_cases hc : t - t0 < timeoutMs
    · rcases hres : (env k).res with e | n
      · refine ⟨t + (env k).dur, [t], .error (.transport e), ?_, ?_⟩
        · simp only [waitLoop, if_pos hc, hres]
        · have := hD k; omega
      · by_cases hn : n = expected
        · refine ⟨t + (env k).dur, [t], .ok (), ?_, ?_⟩
          · simp only [waitLoop, if_pos hc, hres, if_pos hn]
          · have := hD k; omega
        · have h1 := hdur k
          have h2 := hD k
          obtain ⟨tf, tr, r, heq, hle⟩ :=
            ih (k + 1) (t + (env k).dur) (by omega) (by omega)
          refine ⟨tf, t :: tr, r, ?_, ?_⟩
          · simp only [waitLoop, if_pos hc, hres, if_neg hn, heq]; rfl
          · omega
    · refine ⟨t, [], .error (.timeout (timeoutMessage expected)), ?_, ?_⟩
      · simp only [waitLoop, if_neg hc]
      · omega

/-- When every read succeeds but never returns the expected count, the
loop can only exit through the timeout throw, whose error carries exactly
the message template interpolating the expected count. -/
theorem waitLoop_noSat (env : ℕ → RecvResult ε) (t0 expected timeoutMs : ℕ)
    (hdur : ∀ k, 1 ≤ (env k).dur)
    (hmiss : ∀ k, ∃ n, (env k).res = Except.ok n ∧ n ≠ expected) :
    ∀ fuel k t, t0 ≤ t → timeoutMs ≤ t - t0 + fuel →
    ∃ tf tr, waitLoop env t0 expected timeoutMs k t fuel
      = some (tf, tr, .error (.timeout (timeoutMessage expected))) := by
  intro fuel
  induction fuel with
  | zero =>
    intro k t ht hfuel
    exact ⟨t, [], by simp only [waitLoop]; rw [if_neg (by omega)]⟩
  | succ fuel ih =>
    intro k t ht hfuel
    by_cases hc : t - t0 < timeoutMs
    · obtain ⟨n, hres, hn⟩ := hmiss k
      have h1 := hdur k
      obtain ⟨tf, tr, heq⟩ := ih (k + 1) (t + (env k).dur) (by omega) (by omega)
      exact ⟨tf, t :: tr,
        by simp only [waitLoop, if_pos hc, hres, if_neg hn, heq]; rfl⟩
    · exact ⟨t, [], by simp only [waitLoop, if_neg hc]⟩

/-- When reads `0, …, j-1` succeed with counts other than the expected
one, read `j` is decisive (a transport error, or exactly the expected
count), and every read up to `j` starts inside the deadline window, the
loop runs exactly reads `k, …, j` and finishes when read `j` resolves,
with the decisive outcome. -/
theorem waitLoop_reach (env : ℕ → RecvResult ε) (t0 expected timeoutMs j : ℕ)
    (r : Except (WaitError ε) Unit)
    (hok : ∀ i < j, ∃ n, (env i).res = Except.ok n ∧ n ≠ expected)
    (hj : (∃ e, (env j).res = Except.error e ∧ r = Except.error (WaitError.transport e))
          ∨ ((env j).res = Except.ok expected ∧ r = Except.ok ()))
    (hwin : ∀ i ≤ j, recvTime env t0 i - t0 < timeoutMs) :
    ∀ fuel k, k ≤ j → j + 1 - k ≤ fuel →
    waitLoop env t0 expected timeoutMs k (recvTime env t0 k) fuel
      = some (recvTime env t0 j + (env j).dur,
              (List.range' k (j + 1 - k)).map (recvTime env t0), r) := by
  intro fuel
  induction fuel with
  | zero => intro k hk hfuel; omega
  | succ fuel ih =>
    intro k hk hfuel
    have hc : recvTime env t0 k - t0 < timeoutMs := hwin k hk
    rcases Nat.eq_or_lt_of_le hk with hkj | hkj
    · subst hkj
      have hrange : k + 1 - k = 1 := by omega
      rcases hj with ⟨e, hres, hr⟩ | ⟨hres, hr⟩ <;> subst hr <;>
        simp [waitLoop, hc, hres, hrange, List.range'_one]
    · obtain ⟨n, hres, hn⟩ := hok k hkj
      have heq := ih (k + 1) (by omega) (by omega)
      have hstep : recvTime env t0 k + (env k).dur = recvTime env t0 (k + 1) := rfl
      have hrange : List.range' k (j + 1 - k)
          = k :: List.range' (k + 1) (j + 1 - (k + 1)) := by
        have h2 : j + 1 - k = (j + 1 - (k + 1)) + 1 := by omega
        rw [h2, List.range'_succ]
      rw [hrange]
      simp only [waitLoop, if_pos hc, hres, if_neg hn, hstep, heq, List.map_cons]
      rfl

/-! Helper lemmas about the log-appearance poll loop. -/

/-- Every iteration advances the clock by at least the fixed 1000 ms
sleep, so a budget of one iteration per 1000 ms until the deadline
suffices, and the loop finishes no later than one query duration plus one
sleep past its deadline (or at its entry clock, whichever is later). -/
theorem logLoop_total (env : ℕ → ℕ → QryResult ε η) (startTime D : ℕ)
    (hD : ∀ k t, (env k t).dur ≤ D) :
    ∀ fuel k t, startTime + 30000 ≤ t + 1000 * fuel →
    ∃ tf tr r, logLoop env startTime k t fuel = some (tf, tr, r)
      ∧ tf ≤ max t (startTime + 30000 + D + 1000) := by
  intro fuel
  induction fuel with
  | zero =>
    intro k t hfuel
    refine ⟨t, [], .ok [], ?_, by omega⟩
    simp only [logLoop]
    rw [if_neg (by omega)]
  | succ fuel ih =>
    intro k t hfuel
    by_cases hc : t - startTime < 30000
    · have hDk := hD k t
      rcases hres : (env k t).res with e | evs
      · exact ⟨t + (env k t).dur, [t], .error e,
          by simp only [logLoop, if_pos hc, hres], by omega⟩
      · by_cases hlen : 0 < evs.length
        · exact ⟨t + (env k t).dur, [t], .ok evs,
            by simp only [logLoop, if_pos hc, hres, if_pos hlen], by omega⟩
        · obtain ⟨tf, tr, r, heq, hle⟩ :=
            ih (k + 1) (t + (env k t).dur + 1000) (by omega)
          refine ⟨tf, t :: tr, r, ?_, by omega⟩
          simp only [logLoop, if_pos hc, hres, if_neg hlen, heq]; rfl
    · exact ⟨t, [], .ok [], by simp only [logLoop, if_neg hc], by omega⟩

/-- The loop returns the empty event list only through the fall-through
after the deadline check fails, so an empty result is returned at a clock
at least 30000 ms past the filter's start-time bound. -/
theorem logLoop_empty_late (env : ℕ → ℕ → QryResult ε η) (startTime : ℕ) :
    ∀ fuel k t tf tr,
    logLoop env startTime k t fuel = some (tf, tr, Except.ok ([] : List η)) →
    startTime + 30000 ≤ tf := by
  intro fuel
  induction fuel with
  | zero =>
    intro k t tf tr h
    simp only [logLoop] at h
    by_cases hc : t - startTime < 30000
    · rw [if_pos hc] at h; exact absurd h (by simp)
    · rw [if_neg hc] at h
      obtain ⟨h1, -⟩ := Prod.mk.injEq .. ▸ Option.some.injEq .. ▸ h
      omega
  | succ fuel ih =>
    intro k t tf tr h
    by_cases hc : t - startTime < 30000
    · rcases hres : (env k t).res with e | evs
      · simp only [logLoop, if_pos hc, hres] at h
        simp at h
      · by_cases hlen : 0 < evs.length
        · simp only [logLoop, if_pos hc, hres, if_pos hlen] at h
          simp only [Option.some.injEq, Prod.mk.injEq, Except.ok.injEq] at h
          obtain ⟨-, -, h3⟩ := h
          subst h3
          simp at hlen
        · simp only [logLoop, if_pos hc, hres, if_neg hlen] at h
          rcases hrec : logLoop env startTime (k + 1) (t + (env k t).dur + 1000) fuel
              with - | ⟨tf2, tr2, r2⟩ <;> rw [hrec] at h
          · simp at h
          · simp only [Option.map_some', Option.some.injEq, Prod.mk.injEq] at h
            obtain ⟨h1, -, h3⟩ := h
            subst h1
            exact ih _ _ _ _ (by rw [hrec, h3])
    · simp only [logLoop, if_neg hc] at h
      obtain ⟨h1, -⟩ := Prod.mk.injEq .. ▸ Option.some.injEq .. ▸ h
      omega

/-- When every query comes back empty, the loop never throws: it retries,
sleeping 1000 ms between attempts, and returns the empty list at the
first check past the deadline; the end bounds passed to the issued
queries are exactly the consecutive query clocks. -/
theorem logLoop_all_empty (env : ℕ → ℕ → QryResult ε η) (startTime tcall : ℕ)
    (hempty : ∀ k t, (env k t).res = Except.ok ([] : List η)) :
    ∀ fuel k, startTime + 30000 ≤ queryTime env tcall k + 1000 * fuel →
    ∃ m, k ≤ m
      ∧ logLoop env startTime k (queryTime env tcall k) fuel
        = some (queryTime env tcall m,
                (List.range' k (m - k)).map (queryTime env tcall), Except.ok [])
      ∧ startTime + 30000 ≤ queryTime env tcall m := by
  intro fuel
  induction fuel with
  | zero =>
    intro k hfuel
    refine ⟨k, le_refl k, ?_, by omega⟩
    simp only [logLoop, Nat.sub_self, List.range'_zero, List.map_nil]
    rw [if_neg (by omega)]
  | succ fuel ih =>
    intro k hfuel
    by_cases hc : queryTime env tcall k - startTime < 30000
    · have hstep : queryTime env tcall k
          + (env k (queryTime env tcall k)).dur + 1000
          = queryTime env tcall (k + 1) := rfl
      obtain ⟨m, hm, heq, hlate⟩ := ih (k + 1) (by
        have : queryTime env tcall k + 1000 ≤ queryTime env tcall (k + 1) := by
          rw [← hstep]; omega
        omega)
      refine ⟨m, by omega, ?_, hlate⟩
      have hrange : List.range' k (m - k)
          = k :: List.range' (k + 1) (m - (k + 1)) := by
        have h2 : m - k = (m - (k + 1)) + 1 := by omega
        rw [h2, List.range'_succ]
      rw [hrange]
      simp only [logLoop, if_pos hc, hempty, List.length_nil, Nat.lt_irrefl,
        if_neg (by omega : ¬ (0:ℕ) < 0), hstep, heq, List.map_cons]
      rfl
    · refine ⟨k, le_refl k, ?_, by omega⟩
      simp only [logLoop, if_neg hc, Nat.sub_self, List.range'_zero, List.map_nil]

/-- When queries `0, …, j-1` come back empty, query `j` is decisive (a
transport error, or a non-empty event list), and every query up to `j`
is issued inside the deadline window, the loop issues exactly queries
`k, …, j` (each with the then-current clock as its end bound) and
finishes when query `j` resolves, with the decisive outcome returned
unchanged. -/
theorem logLoop_reach (env : ℕ → ℕ → QryResult ε η) (startTime tcall j : ℕ)
    (r : Except ε (List η))
    (hok : ∀ i < j, (env i (queryTime env tcall i)).res = Except.ok [])
    (hj : (∃ e, (env j (queryTime env tcall j)).res = Except.error e
            ∧ r = Except.error e)
          ∨ (∃ evs, (env j (queryTime env tcall j)).res = Except.ok evs
            ∧ 0 < evs.length ∧ r = Except.ok evs))
    (hwin : ∀ i ≤ j, queryTime env tcall i - startTime < 30000) :
    ∀ fuel k, k ≤ j → j + 1 - k ≤ fuel →
    logLoop env startTime k (queryTime env tcall k) fuel
      = some (queryTime env tcall j + (env j (queryTime env tcall j)).dur,
              (List.range' k (j + 1 - k)).map (queryTime env tcall), r) := by
  intro fuel
  induction fuel with
  | zero => intro k hk hfuel; omega
  | succ fuel ih =>
    intro k hk hfuel
    have hc : queryTime env tcall k - startTime < 30000 := hwin k hk
    rcases Nat.eq_or_lt_of_le hk with hkj | hkj
    · subst hkj
      have hrange : k + 1 - k = 1 := by omega
      rcases hj with ⟨e, hres, hr⟩ | ⟨evs, hres, hlen, hr⟩ <;> subst hr
      · simp [logLoop, hc, hres, hrange, List.range'_one]
      · simp [logLoop, hc, hres, hlen, hrange, List.range'_one]
    · have hres := hok k hkj
      have heq := ih (k + 1) (by omega) (by omega)
      have hstep : queryTime env tcall k
          + (env k (queryTime env tcall k)).dur + 1000
          = queryTime env tcall (k + 1) := rfl
      have hrange : List.range' k (j + 1 - k)
          = k :: List.range' (k + 1) (j + 1 - (k + 1)) := by
        have h2 : j + 1 - k = (j + 1 - (k + 1)) + 1 := by omega
        rw [h2, List.range'_succ]
      rw [hrange]
      simp only [logLoop, if_pos hc, hres, List.length_nil,
        if_neg (by omega : ¬ (0:ℕ) < 0), hstep, heq, List.map_cons]
      rfl

/-! Helper lemmas about purge, the file poll, and the load-test batches. -/

/-- When reads `0, …, n-1` return non-empty batches and read `n` returns
an empty batch, the purge loop deletes exactly the entries of the
non-empty batches, in read order, and stops at read `n`. -/
theorem purgeLoop_run (env : ℕ → List μ) (n : ℕ)
    (hne : ∀ k < n, env k ≠ []) (hn : env n = []) :
    ∀ fuel k, k ≤ n → n - k ≤ fuel →
    purgeLoop env k fuel = some (((List.range' k (n - k)).map env).flatten) := by
  intro fuel
  induction fuel with
  | zero =>
    intro k hk hfuel
    have hkn : k = n := by omega
    subst hkn
    simp [purgeLoop, hn]
  | succ fuel ih =>
    intro k hk hfuel
    rcases Nat.eq_or_lt_of_le hk with hkn | hkn
    · subst hkn
      simp [purgeLoop, hn]
    · have hne2 : (env k).isEmpty = false := by
        rcases h : (env k).isEmpty with - | -
        · rfl
        · exact absurd (List.isEmpty_iff.mp h) (hne k hkn)
      have heq := ih (k + 1) (by omega) (by omega)
      have hrange : List.range' k (n - k)
          = k :: List.range' (k + 1) (n - (k + 1)) := by
        have h2 : n - k = (n - (k + 1)) + 1 := by omega
        rw [h2, List.range'_succ]
      rw [purgeLoop, hne2, heq, hrange]
      simp

/-- The try loop of `waitForFile` returns `true` exactly when one of its
`n` existence checks, which probe consecutive try indices starting at
`i`, finds the file. -/
theorem waitTries_eq_true_iff (ex : ℕ → Bool) :
    ∀ n i, waitTries ex i n = true ↔ ∃ j < n, ex (i + j) = true := by
  intro n
  induction n with
  | zero => intro i; simp [waitTries]
  | succ n ih =>
    intro i
    rcases h : ex i with - | -
    · rw [waitTries, h, if_neg (by simp), ih (i + 1)]
      constructor
      · rintro ⟨j, hj, hex⟩
        exact ⟨j + 1, by omega, by rw [show i + (j + 1) = i + 1 + j by omega]; exact hex⟩
      · rintro ⟨j, hj, hex⟩
        match j with
        | 0 => rw [Nat.add_zero] at hex; rw [hex] at h; cases h
        | j + 1 =>
          exact ⟨j, by omega, by rw [show i + 1 + j = i + (j + 1) by omega]; exact hex⟩
    · rw [waitTries, h, if_pos rfl]
      exact ⟨fun _ => ⟨0, by omega, by rw [Nat.add_zero]; exact h⟩, fun _ => rfl⟩

/-- The slicing loop reassembles the original list: its chunks
concatenate, in order, to the input. -/
theorem sliceChunks_flatten (bs : ℕ) (hbs : 0 < bs) :
    ∀ fuel (l : List α), l.length ≤ fuel → (sliceChunks bs fuel l).flatten = l := by
  intro fuel
  induction fuel with
  | zero =>
    intro l h
    have hl : l = [] := List.length_eq_zero.mp (by omega)
    subst hl
    rfl
  | succ fuel ih =>
    intro l h
    match l with
    | [] => rfl
    | x :: xs =>
      rw [sliceChunks, List.flatten_cons,
        ih ((x :: xs).drop bs) (by simp at h ⊢; omega), List.take_append_drop]

/-- Incremental step of the ceiling division along one slice. -/
theorem ceilDiv_sub_step (len bs : ℕ) (hbs : 0 < bs) (hlen : 0 < len) :
    ceilDiv len bs = ceilDiv (len - bs) bs + 1 := by
  by_cases hle : len ≤ bs
  · have h0 : len - bs = 0 := by omega
    rw [h0]
    unfold ceilDiv
    have h1 : len + bs - 1 = (len - 1) + bs := by omega
    rw [h1, Nat.add_div_right _ hbs, Nat.div_eq_of_lt (by omega),
      Nat.div_eq_of_lt (by omega)]
  · unfold ceilDiv
    have h1 : len + bs - 1 = (len - 1) + bs := by omega
    have h2 : len - bs + bs - 1 = len - 1 := by omega
    rw [h1, h2, Nat.add_div_right _ hbs]

/-- The slicing loop produces exactly the ceiling of length over batch
size many chunks. -/
theorem sliceChunks_count (bs : ℕ) (hbs : 0 < bs) :
    ∀ fuel (l : List α), l.length ≤ fuel →
    (sliceChunks bs fuel l).length = ceilDiv l.length bs := by
  intro fuel
  induction fuel with
  | zero =>
    intro l h
    have hl : l = [] := List.length_eq_zero.mp (by omega)
    subst hl
    unfold ceilDiv
    simp [sliceChunks, Nat.div_eq_of_lt (by omega : bs - 1 < bs)]
  | succ fuel ih =>
    intro l h
    match l with
    | [] =>
      unfold ceilDiv
      simp [sliceChunks, Nat.div_eq_of_lt (by omega : bs - 1 < bs)]
    | x :: xs =>
      rw [sliceChunks, List.length_cons, ih ((x :: xs).drop bs) (by simp at h ⊢; omega),
        List.length_drop,
        ← ceilDiv_sub_step (x :: xs).length bs hbs (by simp)]

/-- The slicing loop does nothing on an exhausted list, whatever the
budget. -/
theorem sliceChunks_nil (bs fuel : ℕ) :
    sliceChunks bs fuel ([] : List α) = [] := by
  cases fuel <;> rfl

/-- Every chunk the slicing loop produces is non-empty and no longer
than the batch size, and every chunk except possibly the last is exactly
the batch size. -/
theorem sliceChunks_sizes (bs : ℕ) (hbs : 0 < bs) :
    ∀ fuel (l : List α), l.length ≤ fuel →
    (∀ b ∈ sliceChunks bs fuel l, 0 < b.length ∧ b.length ≤ bs)
    ∧ (∀ b ∈ (sliceChunks bs fuel l).dropLast, b.length = bs) := by
  intro fuel
  induction fuel with
  | zero =>
    intro l h
    have hl : l = [] := List.length_eq_zero.mp (by omega)
    subst hl
    exact ⟨by simp [sliceChunks], by simp [sliceChunks]⟩
  | succ fuel ih =>
    intro l h
    match l with
    | [] => exact ⟨by simp [sliceChunks_nil], by simp [sliceChunks_nil]⟩
    | x :: xs =>
      have hrec := ih ((x :: xs).drop bs) (by simp at h ⊢; omega)
      rw [sliceChunks]
      constructor
      · intro b hb
        rcases List.mem_cons.mp hb with rfl | hb2
        · exact ⟨by simp [List.length_take]; omega, by simp [List.length_take]⟩
        · exact hrec.1 b hb2
      · rcases hrest : sliceChunks bs fuel ((x :: xs).drop bs) with - | ⟨b0, rest⟩
        · simp [hrest]
        · rw [List.dropLast_cons₂]
          intro b hb
          rcases List.mem_cons.mp hb with rfl | hb2
          · have hmore : bs < (x :: xs).length := by
              by_contra hcon
              have hdropnil : (x :: xs).drop bs = [] := by
                apply List.drop_eq_nil_of_le
                omega
              rw [hdropnil, sliceChunks_nil] at hrest
              cases hrest
            have hmore2 : bs < xs.length + 1 := by simpa using hmore
            simp [List.length_take]
            omega
          · exact hrec.2 b (by rw [hrest]; exact hb2)

/-! Helper lemmas about the attribute encoding. -/

/-- Every character of a stringified natural is a decimal digit (code
point at least 48), in particular never the minus sign. -/
theorem natChars_digits (n : ℕ) : ∀ c ∈ natChars n, 48 ≤ c.toNat := by
  intro c hc
  unfold natChars at hc
  by_cases h : n = 0
  · rw [if_pos h] at hc
    simp at hc
    subst hc
    decide
  · rw [if_neg h] at hc
    rw [List.mem_reverse, List.mem_map] at hc
    obtain ⟨d, hd, hdc⟩ := hc
    have hlt : d < 10 := Nat.digits_lt_base (by omega) hd
    subst hdc
    unfold digitToChar
    interval_cases d <;> decide

/-- Parsing inverts decimal stringification on naturals. -/
theorem charsToNat_natChars (n : ℕ) : charsToNat (natChars n) = n := by
  unfold natChars
  by_cases h : n = 0
  · rw [if_pos h, h]
    decide
  · rw [if_neg h]
    unfold charsToNat
    rw [List.map_reverse, List.reverse_reverse, List.map_map]
    have hcongr : (Nat.digits 10 n).map (charToDigit ∘ digitToChar)
        = (Nat.digits 10 n).map id := by
      refine List.map_congr_left ?_
      intro d hd
      have hlt : d < 10 := Nat.digits_lt_base (by omega) hd
      show charToDigit (digitToChar d) = d
      unfold charToDigit digitToChar
      interval_cases d <;> decide
    rw [hcongr, List.map_id, Nat.ofDigits_digits]

/-- Parsing inverts JavaScript integral stringification. -/
theorem parseNum_numToString (i : ℤ) : parseNum (numToString i) = i := by
  unfold numToString parseNum
  by_cases h : i < 0
  · rw [if_pos h]
    have hdata : (String.mk ('-' :: natChars i.natAbs)).data
        = '-' :: natChars i.natAbs := rfl
    rw [hdata, if_pos (by simp : ('-' :: natChars i.natAbs).head? = some '-'),
      List.tail_cons, charsToNat_natChars]
    omega
  · rw [if_neg h]
    have hdata : (String.mk (natChars i.natAbs)).data = natChars i.natAbs := rfl
    rw [hdata]
    have hne : (natChars i.natAbs).head? ≠ some '-' := by
      rcases hcs : (natChars i.natAbs).head? with - | c
      · simp
      · intro hcontra
        have hc : c ∈ natChars i.natAbs := List.mem_of_mem_head? hcs
        have := natChars_digits i.natAbs c hc
        rw [Option.some.injEq] at hcontra
        subst hcontra
        revert this
        decide
    rw [if_neg hne, charsToNat_natChars]
    omega

/-- On primitive values the encoder's field dispatch and element lambda
agree and are inverted by the decoder. -/
theorem decode_encode_prim (v : JSVal) (h : isPrimitive v = true) :
    decodeValue (encodeValue v) = v ∧ encodeElem v = encodeValue v := by
  cases v with
  | str s => exact ⟨rfl, rfl⟩
  | num n =>
    refine ⟨?_, rfl⟩
    show JSVal.num (parseNum (numToString n)) = JSVal.num n
    rw [parseNum_numToString]
  | bool b => exact ⟨rfl, rfl⟩
  | null => exact ⟨rfl, rfl⟩
  | list l => exact absurd h (by simp [isPrimitive])
  | obj o => exact absurd h (by simp [isPrimitive])

/-- Element-wise decoding inverts element-wise encoding of a list of
primitives. -/
theorem decodeElems_encodeElems (l : List JSVal)
    (h : ∀ e ∈ l, isPrimitive e = true) :
    decodeElems (encodeElems l) = l := by
  induction l with
  | nil => rfl
  | cons v vs ih =>
    obtain ⟨h1, h2⟩ := decode_encode_prim v (h v (by simp))
    rw [encodeElems, decodeElems, h2, h1, ih (fun e he => h e (by simp [he]))]

/-- Field-wise decoding inverts field-wise encoding of a record of
primitives. -/
theorem decodeFields_encodeFields (o : List (String × JSVal))
    (h : ∀ p ∈ o, isPrimitive p.2 = true) :
    decodeFields (encodeFields o) = o := by
  induction o with
  | nil => rfl
  | cons p ps ih =>
    obtain ⟨k, v⟩ := p
    obtain ⟨h1, -⟩ := decode_encode_prim v (h (k, v) (by simp))
    rw [encodeFields, decodeFields, h1, ih (fun q hq => h q (by simp [hq]))]

/-- Decoding inverts encoding on any value that is primitive or one
level of list/map nesting over primitives. -/
theorem decodeValue_encodeValue (v : JSVal) (h : oneLevel v = true) :
    decodeValue (encodeValue v) = v := by
  cases v with
  | list l =>
    show JSVal.list (decodeElems (encodeElems l)) = JSVal.list l
    rw [decodeElems_encodeElems l
      (List.all_eq_true.mp (show l.all isPrimitive = true from h))]
  | obj o =>
    show JSVal.obj (decodeFields (encodeFields o)) = JSVal.obj o
    refine congrArg JSVal.obj (decodeFields_encodeFields o ?_)
    intro p hp
    exact List.all_eq_true.mp
      (show o.all (fun q => isPrimitive q.2) = true from h) p hp
  | str s => rfl
  | num n => exact (decode_encode_prim (JSVal.num n) rfl).1
  | bool b => rfl
  | null => rfl

/-! Claim theorems. -/

/-- C1 (counterexample): the claim "neither poller ever blocks past its
configured timeout, including the queue poller's fixed initial delay" is
false: invoked at clock 0 with a 2000 ms timeout, `waitForLambdaProcessing`
sits out its fixed 10000 ms initial delay and only then throws the
timeout, finishing at clock 10000, later than 0 + 2000. -/
theorem C1_counterexample :
    waitForLambdaProcessing (fun _ => (⟨1, Except.ok 5⟩ : RecvResult ℕ)) 0 0 2000 1
      = some (10000, [], Except.error (WaitError.timeout (timeoutMessage 0)))
    ∧ ¬ (10000 ≤ 0 + 2000) :=
  ⟨rfl, by omega⟩

/-- C1 (amended): each poller finishes, but only within an adjusted
deadline: with every read lasting between 1 and `D` ticks, the queue
poller invoked at `t0` finishes no later than
`t0 + max 10000 (timeoutMs + D)` (the fixed 10000 ms initial delay is not
absorbed into a shorter timeout, and the final read may overshoot by its
own duration); the log poller finishes no later than
`max tcall (startTime + 30000 + D + 1000)` — its deadline is anchored at
`filter.startTime`, overshooting by at most one query duration plus the
1000 ms sleep. -/
theorem C1_deadline_bounds :
    (∀ (ε : Type) (env : ℕ → RecvResult ε) (t0 expected timeoutMs D fuel : ℕ),
      (∀ k, 1 ≤ (env k).dur) → (∀ k, (env k).dur ≤ D) → timeoutMs ≤ fuel →
      ∃ tf tr r, waitForLambdaProcessing env t0 expected timeoutMs fuel
          = some (tf, tr, r)
        ∧ tf ≤ t0 + max 10000 (timeoutMs + D))
    ∧ (∀ (ε η : Type) (env : ℕ → ℕ → QryResult ε η) (startTime tcall D fuel : ℕ),
      (∀ k t, (env k t).dur ≤ D) → startTime + 30000 ≤ tcall + 1000 * fuel →
      ∃ tf tr r, getLogEvents env startTime tcall fuel = some (tf, tr, r)
        ∧ tf ≤ max tcall (startTime + 30000 + D + 1000)) := by
  constructor
  · intro ε env t0 expected timeoutMs D fuel h1 hD hfuel
    obtain ⟨tf, tr, r, heq, hle⟩ := waitLoop_total env t0 expected timeoutMs D h1 hD
      fuel 0 (t0 + 10000) (by omega) (by omega)
    exact ⟨tf, tr, r, heq, by omega⟩
  · intro ε η env startTime tcall D fuel hD hfuel
    exact logLoop_total env startTime D hD fuel 0 tcall (by omega)

/-- C1 (witness): the amended bounds applied to a concrete queue poll
(every read lasts 1 tick, timeout 2000 ms, fuel 2000) and a concrete log
poll (every query lasts 1 tick, called at clock 0 with start-time bound
0, fuel 31). -/
theorem C1_deadline_bounds_witness :
    (∃ tf tr r,
      waitForLambdaProcessing (fun _ => (⟨1, Except.ok 5⟩ : RecvResult ℕ))
          0 0 2000 2000 = some (tf, tr, r)
        ∧ tf ≤ 0 + max 10000 (2000 + 1))
    ∧ (∃ tf tr r,
      getLogEvents (fun _ _ => (⟨1, Except.ok []⟩ : QryResult ℕ ℕ)) 0 0 31
          = some (tf, tr, r)
        ∧ tf ≤ max 0 (0 + 30000 + 1 + 1000)) :=
  ⟨C1_deadline_bounds.1 ℕ (fun _ => ⟨1, Except.ok 5⟩) 0 0 2000 1 2000
      (fun _ => le_refl 1) (fun _ => le_refl 1) (by omega),
    C1_deadline_bounds.2 ℕ ℕ (fun _ _ => ⟨1, Except.ok []⟩) 0 0 1 31
      (fun _ _ => le_refl 1) (by omega)⟩

/-- C2 (counterexample): the claim "the `getLogEvents` poll loop
terminates when (current time minus the time the call began) exceeds the
timeout budget, independently of the caller-supplied `filter.startTime`"
is false: called at clock 40000 with `filter.startTime = 0`, the loop
terminates at once — zero queries issued, empty result, elapsed time 0 —
even though the store has matching events, because the deadline is
computed from `filter.startTime`, which lies more than 30000 ms in the
past. -/
theorem C2_counterexample :
    getLogEvents (fun _ _ => (⟨1, Except.ok [0]⟩ : QryResult ℕ ℕ)) 0 40000 5
      = some (40000, [], Except.ok [])
    ∧ ¬ (30000 ≤ 40000 - 40000) :=
  ⟨rfl, by omega⟩

/-- C2 (amended): the hard deadline of `getLogEvents` is measured from
the caller-supplied `filter.startTime`, not from the call's own start:
whenever the poller returns the empty fall-through result it does so at a
clock at least `filter.startTime + 30000`, and whenever the call begins
at or after `filter.startTime + 30000` it returns the empty result
immediately, issuing no query at all. -/
theorem C2_deadline_from_filter :
    (∀ (ε η : Type) (env : ℕ → ℕ → QryResult ε η) (startTime tcall fuel tf : ℕ)
      (tr : List ℕ),
      getLogEvents env startTime tcall fuel = some (tf, tr, Except.ok ([] : List η)) →
      startTime + 30000 ≤ tf)
    ∧ (∀ (ε η : Type) (env : ℕ → ℕ → QryResult ε η) (startTime tcall fuel : ℕ),
      startTime + 30000 ≤ tcall →
      getLogEvents env startTime tcall fuel = some (tcall, [], Except.ok [])) := by
  constructor
  · intro ε η env startTime tcall fuel tf tr h
    exact logLoop_empty_late env startTime fuel 0 tcall tf tr h
  · intro ε η env startTime tcall fuel h
    cases fuel <;>
      · show logLoop env startTime 0 tcall _ = _
        rw [logLoop, if_neg (by omega)]

/-- C2 (witness): both amended conclusions at the concrete call of the
counterexample input: invoked at clock 40000 with start-time bound 0, the
empty result is returned at clock 40000 ≥ 0 + 30000, with no query
issued. -/
theorem C2_deadline_from_filter_witness :
    getLogEvents (fun _ _ => (⟨1, Except.ok [0]⟩ : QryResult ℕ ℕ)) 0 40000 5
      = some (40000, [], Except.ok [])
    ∧ 0 + 30000 ≤ 40000 :=
  ⟨C2_deadline_from_filter.2 ℕ ℕ (fun _ _ => ⟨1, Except.ok [0]⟩) 0 40000 5
      (by omega),
    by omega⟩

/-- C3 (counterexample): the claim that the queue poller's timeout error
carries both the expected count and the last-observed count is false: a
queue stuck at 5 messages polled with expected count 0 produces the
timeout error whose message is the fixed template interpolating only the
expected count — the digit 5 (the last-observed count) appears nowhere in
it. -/
theorem C3_counterexample :
    waitForLambdaProcessing (fun _ => (⟨1, Except.ok 5⟩ : RecvResult ℕ)) 0 0 10002 3
      = some (10002, [10000, 10001],
          Except.error (WaitError.timeout (timeoutMessage 0)))
    ∧ ¬ ('5' ∈ (timeoutMessage 0).data) :=
  ⟨rfl, by decide⟩

/-- C3 (amended): when the queue-drain poll reaches its deadline without
the received count ever equalling the expected count, it throws the
timeout error whose message is exactly the template
`Timeout waiting for Lambda processing. Expected ... messages`
interpolating the expected count — and nothing else. -/
theorem C3_timeout_error_payload (ε : Type) (env : ℕ → RecvResult ε)
    (t0 expected timeoutMs fuel : ℕ) (c : ℕ → ℕ)
    (hdur : ∀ k, 1 ≤ (env k).dur)
    (hres : ∀ k, (env k).res = Except.ok (c k))
    (hne : ∀ k, c k ≠ expected)
    (hfuel : timeoutMs ≤ fuel) :
    ∃ tf tr, waitForLambdaProcessing env t0 expected timeoutMs fuel
      = some (tf, tr, Except.error (WaitError.timeout
          ("Timeout waiting for Lambda processing. Expected "
            ++ toString expected ++ " messages"))) :=
  waitLoop_noSat env t0 expected timeoutMs hdur (fun k => ⟨c k, hres k, hne k⟩)
    fuel 0 (t0 + 10000) (by omega) (by omega)

/-- C3 (witness): the amended conclusion at the spec's own scenario
shape — a queue that always reports 5 messages, expected count 0. -/
theorem C3_timeout_error_payload_witness :
    ∃ tf tr,
      waitForLambdaProcessing (fun _ => (⟨1, Except.ok 5⟩ : RecvResult ℕ))
          0 0 10002 10002
        = some (tf, tr, Except.error (WaitError.timeout
            ("Timeout waiting for Lambda processing. Expected "
              ++ toString 0 ++ " messages"))) :=
  C3_timeout_error_payload ℕ (fun _ => ⟨1, Except.ok 5⟩) 0 0 10002 10002
    (fun _ => 5) (fun _ => le_refl 1) (fun _ => rfl)
    (fun _ => Nat.succ_ne_zero 4) (by omega)

/-- C4: `waitForLambdaProcessing` performs the fixed 10000 ms initial
delay before the first read (the first read time is `t0 + 10000`), then
repeatedly reads a batch, returning normally on the first read whose
returned count equals the expected count exactly; reads returning fewer
or more messages (the counts `c j` are arbitrary) are not errors — the
trace shows every read up to the first satisfying one was issued and
polling simply continued. -/
theorem C4_first_satisfying_read (ε : Type) (env : ℕ → RecvResult ε)
    (t0 expected timeoutMs fuel jstar : ℕ) (c : ℕ → ℕ)
    (hres : ∀ k, (env k).res = Except.ok (c k))
    (hne : ∀ j < jstar, c j ≠ expected)
    (hsat : c jstar = expected)
    (hwin : ∀ j ≤ jstar, recvTime env t0 j - t0 < timeoutMs)
    (hfuel : jstar + 1 ≤ fuel) :
    waitForLambdaProcessing env t0 expected timeoutMs fuel
      = some (recvTime env t0 jstar + (env jstar).dur,
              (List.range' 0 (jstar + 1)).map (recvTime env t0), Except.ok ())
    ∧ recvTime env t0 0 = t0 + 10000 := by
  constructor
  · have h := waitLoop_reach env t0 expected timeoutMs jstar (Except.ok ())
      (fun i hi => ⟨c i, hres i, hne i hi⟩)
      (Or.inr ⟨hsat ▸ hres jstar, rfl⟩) hwin fuel 0 (by omega) (by omega)
    simpa [waitForLambdaProcessing] using h
  · rfl

/-- C4 (witness): a queue observed at 5, then 3, then 0 messages with
expected count 0: the poller issues reads at clocks 10000, 10001, 10002
and returns normally after the third read. -/
theorem C4_first_satisfying_read_witness :
    waitForLambdaProcessing
        (fun k => (⟨1, Except.ok ([5, 3, 0].getD k 0)⟩ : RecvResult ℕ))
        0 0 30000 3
      = some (recvTime (fun k => (⟨1, Except.ok ([5, 3, 0].getD k 0)⟩ : RecvResult ℕ)) 0 2
            + ((fun k => (⟨1, Except.ok ([5, 3, 0].getD k 0)⟩ : RecvResult ℕ)) 2).dur,
          (List.range' 0 3).map
            (recvTime (fun k => (⟨1, Except.ok ([5, 3, 0].getD k 0)⟩ : RecvResult ℕ)) 0),
          Except.ok ())
    ∧ recvTime (fun k => (⟨1, Except.ok ([5, 3, 0].getD k 0)⟩ : RecvResult ℕ)) 0 0
        = 0 + 10000 :=
  C4_first_satisfying_read ℕ (fun k => ⟨1, Except.ok ([5, 3, 0].getD k 0)⟩)
    0 0 30000 3 2 (fun k => [5, 3, 0].getD k 0)
    (fun _ => rfl) (by decide) (by decide) (by decide) (by omega)

/-- C5: behaviour of the log-appearance poll: (a) when no query ever
matches and none errors, the poller sleeps 1000 ms between attempts (the
query clocks advance by the query duration plus 1000), returns the empty
list at the first check past the deadline and never throws; (b) when
queries `0, …, j-1` are empty and query `j` returns a non-empty event
list, those events are returned immediately, each issued query having
carried the then-current clock as its recomputed window end bound (the
trace equals the query clocks). -/
theorem C5_log_poll_behaviour :
    (∀ (ε η : Type) (env : ℕ → ℕ → QryResult ε η) (startTime tcall fuel : ℕ),
      (∀ k t, (env k t).res = Except.ok ([] : List η)) →
      startTime + 30000 ≤ tcall + 1000 * fuel →
      ∃ m, getLogEvents env startTime tcall fuel
          = some (queryTime env tcall m,
                  (List.range' 0 m).map (queryTime env tcall), Except.ok [])
        ∧ startTime + 30000 ≤ queryTime env tcall m
        ∧ ∀ k, queryTime env tcall (k + 1)
            = queryTime env tcall k + (env k (queryTime env tcall k)).dur + 1000)
    ∧ (∀ (ε η : Type) (env : ℕ → ℕ → QryResult ε η) (startTime tcall fuel j : ℕ)
        (evs : List η),
      (∀ i < j, (env i (queryTime env tcall i)).res = Except.ok []) →
      (env j (queryTime env tcall j)).res = Except.ok evs →
      0 < evs.length →
      (∀ i ≤ j, queryTime env tcall i - startTime < 30000) →
      j + 1 ≤ fuel →
      getLogEvents env startTime tcall fuel
        = some (queryTime env tcall j + (env j (queryTime env tcall j)).dur,
                (List.range' 0 (j + 1)).map (queryTime env tcall),
                Except.ok evs)) := by
  constructor
  · intro ε η env startTime tcall fuel hempty hfuel
    obtain ⟨m, -, heq, hlate⟩ :=
      logLoop_all_empty env startTime tcall hempty fuel 0 (by
        show startTime + 30000 ≤ tcall + 1000 * fuel
        omega)
    refine ⟨m, ?_, hlate, fun k => rfl⟩
    simpa [getLogEvents] using heq
  · intro ε η env startTime tcall fuel j evs hok hres hlen hwin hfuel
    have h := logLoop_reach env startTime tcall j (Except.ok evs) hok
      (Or.inr ⟨evs, hres, hlen, rfl⟩) hwin fuel 0 (by omega) (by omega)
    simpa [getLogEvents] using h

/-- C5 (witness): (a) a store that never matches, polled from clock 0
with start-time bound 0 and 31 iterations of budget; (b) a store whose
first query already returns one event. -/
theorem C5_log_poll_behaviour_witness :
    (∃ m, getLogEvents (fun _ _ => (⟨1, Except.ok []⟩ : QryResult ℕ ℕ)) 0 0 31
        = some (queryTime (fun _ _ => (⟨1, Except.ok []⟩ : QryResult ℕ ℕ)) 0 m,
            (List.range' 0 m).map
              (queryTime (fun _ _ => (⟨1, Except.ok []⟩ : QryResult ℕ ℕ)) 0),
            Except.ok [])
      ∧ 0 + 30000 ≤ queryTime (fun _ _ => (⟨1, Except.ok []⟩ : QryResult ℕ ℕ)) 0 m
      ∧ ∀ k, queryTime (fun _ _ => (⟨1, Except.ok []⟩ : QryResult ℕ ℕ)) 0 (k + 1)
          = queryTime (fun _ _ => (⟨1, Except.ok []⟩ : QryResult ℕ ℕ)) 0 k
            + ((fun _ _ => (⟨1, Except.ok []⟩ : QryResult ℕ ℕ)) k
                (queryTime (fun _ _ => (⟨1, Except.ok []⟩ : QryResult ℕ ℕ)) 0 k)).dur
            + 1000)
    ∧ getLogEvents (fun _ _ => (⟨1, Except.ok [42]⟩ : QryResult ℕ ℕ)) 0 0 1
      = some (queryTime (fun _ _ => (⟨1, Except.ok [42]⟩ : QryResult ℕ ℕ)) 0 0
            + ((fun _ _ => (⟨1, Except.ok [42]⟩ : QryResult ℕ ℕ)) 0
                (queryTime (fun _ _ => (⟨1, Except.ok [42]⟩ : QryResult ℕ ℕ)) 0 0)).dur,
          (List.range' 0 1).map
            (queryTime (fun _ _ => (⟨1, Except.ok [42]⟩ : QryResult ℕ ℕ)) 0),
          Except.ok [42]) :=
  ⟨C5_log_poll_behaviour.1 ℕ ℕ (fun _ _ => ⟨1, Except.ok []⟩) 0 0 31
      (fun _ _ => rfl) (by omega),
    C5_log_poll_behaviour.2 ℕ ℕ (fun _ _ => ⟨1, Except.ok [42]⟩) 0 0 1 0 [42]
      (by omega) rfl (by decide) (by decide) (by omega)⟩

/-- C6: the attribute encoder maps every field by the closed tag table —
strings to `S`, numbers to `N` with the stringified value, booleans to
`BOOL`, lists element-wise under `L`, nested records recursively under
`M`, null to `NULL` — and decoding inverts the encoding for every record
whose values are primitives or one level of list/map nesting over
primitives. -/
theorem C6_tag_table_round_trip (data : List (String × JSVal))
    (h : ∀ p ∈ data, oneLevel p.2 = true) :
    fromDynamoFormat (toDynamoFormat data) = data
    ∧ (∀ s, encodeValue (JSVal.str s) = AttrVal.S s)
    ∧ (∀ n, encodeValue (JSVal.num n) = AttrVal.N (numToString n))
    ∧ (∀ b, encodeValue (JSVal.bool b) = AttrVal.BOOL b)
    ∧ (∀ l, encodeValue (JSVal.list l) = AttrVal.L (encodeElems l))
    ∧ (∀ o, encodeValue (JSVal.obj o) = AttrVal.M (encodeFields o))
    ∧ encodeValue JSVal.null = AttrVal.NULL := by
  refine ⟨?_, fun s => rfl, fun n => rfl, fun b => rfl, fun l => rfl,
    fun o => rfl, rfl⟩
  induction data with
  | nil => rfl
  | cons p ps ih =>
    obtain ⟨k, v⟩ := p
    show decodeFields (encodeFields ((k, v) :: ps)) = (k, v) :: ps
    rw [encodeFields, decodeFields,
      decodeValue_encodeValue v (h (k, v) (by simp))]
    have hps := ih (fun q hq => h q (by simp [hq]))
    exact congrArg (List.cons (k, v)) hps

/-- C6 (witness): the round trip on a concrete record exercising every
primitive tag plus one level of list and map nesting (with a negative
number among the values). -/
theorem C6_tag_table_round_trip_witness :
    fromDynamoFormat (toDynamoFormat
        [("a", JSVal.str "x"), ("b", JSVal.num (-7)), ("c", JSVal.bool true),
         ("d", JSVal.null), ("e", JSVal.list [JSVal.num 3, JSVal.str "y"]),
         ("f", JSVal.obj [("g", JSVal.num 12)])])
      = [("a", JSVal.str "x"), ("b", JSVal.num (-7)), ("c", JSVal.bool true),
         ("d", JSVal.null), ("e", JSVal.list [JSVal.num 3, JSVal.str "y"]),
         ("f", JSVal.obj [("g", JSVal.num 12)])]
    ∧ (∀ s, encodeValue (JSVal.str s) = AttrVal.S s)
    ∧ (∀ n, encodeValue (JSVal.num n) = AttrVal.N (numToString n))
    ∧ (∀ b, encodeValue (JSVal.bool b) = AttrVal.BOOL b)
    ∧ (∀ l, encodeValue (JSVal.list l) = AttrVal.L (encodeElems l))
    ∧ (∀ o, encodeValue (JSVal.obj o) = AttrVal.M (encodeFields o))
    ∧ encodeValue JSVal.null = AttrVal.NULL :=
  C6_tag_table_round_trip
    [("a", JSVal.str "x"), ("b", JSVal.num (-7)), ("c", JSVal.bool true),
     ("d", JSVal.null), ("e", JSVal.list [JSVal.num 3, JSVal.str "y"]),
     ("f", JSVal.obj [("g", JSVal.num 12)])]
    (by intro p hp; fin_cases hp <;> rfl)

/-- C7: purge is idempotent on an empty queue — a first read returning no
entries yields zero deletes and an immediate return — and in general the
purge loop deletes exactly the entries of each non-empty batch, in read
order, stopping at the first empty read. -/
theorem C7_purge_idempotent_and_drain :
    (∀ (μ : Type) (env : ℕ → List μ) (fuel : ℕ), env 0 = [] →
      purgeQueue env fuel = some [])
    ∧ (∀ (μ : Type) (env : ℕ → List μ) (n fuel : ℕ),
      (∀ k < n, env k ≠ []) → env n = [] → n ≤ fuel →
      purgeQueue env fuel = some (((List.range' 0 n).map env).flatten)) := by
  constructor
  · intro μ env fuel h
    have hh := purgeLoop_run env 0 (fun k hk => absurd hk (Nat.not_lt_zero k)) h
      fuel 0 (by omega) (by omega)
    simpa [purgeQueue] using hh
  · intro μ env n fuel h1 h2 h3
    have h := purgeLoop_run env n h1 h2 fuel 0 (by omega) (by omega)
    simpa [purgeQueue] using h

/-- C7 (witness): a queue already empty at the first read (zero deletes),
and a queue with two non-empty batches followed by an empty read. -/
theorem C7_purge_witness :
    purgeQueue (fun _ => ([] : List ℕ)) 0 = some []
    ∧ purgeQueue (fun k => if k < 2 then [k, k + 10] else ([] : List ℕ)) 3
      = some ((
          (List.range' 0 2).map (fun k => if k < 2 then [k, k + 10] else [])).flatten) :=
  ⟨C7_purge_idempotent_and_drain.1 ℕ (fun _ => []) 0 rfl,
    C7_purge_idempotent_and_drain.2 ℕ (fun k => if k < 2 then [k, k + 10] else [])
      2 3 (by decide) (by decide) (by omega)⟩

/-- C8: in either poller, an error raised by the underlying remote read
is neither retried nor swallowed: it propagates immediately with the
original error value carried unchanged (wrapped in the queue poller's
thrown-error union as `transport e`; returned as `Except.error e` itself
by the log poller), and the trace shows exactly `j + 1` remote calls —
none after the failing one. -/
theorem C8_transport_propagation :
    (∀ (ε : Type) (env : ℕ → RecvResult ε) (t0 expected timeoutMs fuel j : ℕ)
      (c : ℕ → ℕ) (e : ε),
      (∀ i < j, (env i).res = Except.ok (c i) ∧ c i ≠ expected) →
      (env j).res = Except.error e →
      (∀ i ≤ j, recvTime env t0 i - t0 < timeoutMs) →
      j + 1 ≤ fuel →
      waitForLambdaProcessing env t0 expected timeoutMs fuel
        = some (recvTime env t0 j + (env j).dur,
                (List.range' 0 (j + 1)).map (recvTime env t0),
                Except.error (WaitError.transport e)))
    ∧ (∀ (ε η : Type) (env : ℕ → ℕ → QryResult ε η) (startTime tcall fuel j : ℕ)
        (e : ε),
      (∀ i < j, (env i (queryTime env tcall i)).res = Except.ok []) →
      (env j (queryTime env tcall j)).res = Except.error e →
      (∀ i ≤ j, queryTime env tcall i - startTime < 30000) →
      j + 1 ≤ fuel →
      getLogEvents env startTime tcall fuel
        = some (queryTime env tcall j + (env j (queryTime env tcall j)).dur,
                (List.range' 0 (j + 1)).map (queryTime env tcall),
                Except.error e)) := by
  constructor
  · intro ε env t0 expected timeoutMs fuel j c e hok herr hwin hfuel
    have h := waitLoop_reach env t0 expected timeoutMs j
      (Except.error (WaitError.transport e))
      (fun i hi => ⟨c i, (hok i hi).1, (hok i hi).2⟩)
      (Or.inl ⟨e, herr, rfl⟩) hwin fuel 0 (by omega) (by omega)
    simpa [waitForLambdaProcessing] using h
  · intro ε η env startTime tcall fuel j e hok herr hwin hfuel
    have h := logLoop_reach env startTime tcall j (Except.error e) hok
      (Or.inl ⟨e, herr, rfl⟩) hwin fuel 0 (by omega) (by omega)
    simpa [getLogEvents] using h

/-- C8 (witness): a queue read that fails on the second call after one
count-5 read, and a log query that fails on the second call after one
empty query; both pollers stop with the error after exactly two remote
calls. -/
theorem C8_transport_propagation_witness :
    waitForLambdaProcessing
        (fun k => if k = 0 then (⟨1, Except.ok 5⟩ : RecvResult ℕ)
          else ⟨1, Except.error 99⟩) 0 0 30000 2
      = some (recvTime (fun k => if k = 0 then (⟨1, Except.ok 5⟩ : RecvResult ℕ)
              else ⟨1, Except.error 99⟩) 0 1
            + ((fun k => if k = 0 then (⟨1, Except.ok 5⟩ : RecvResult ℕ)
              else ⟨1, Except.error 99⟩) 1).dur,
          (List.range' 0 2).map
            (recvTime (fun k => if k = 0 then (⟨1, Except.ok 5⟩ : RecvResult ℕ)
              else ⟨1, Except.error 99⟩) 0),
          Except.error (WaitError.transport 99))
    ∧ getLogEvents
        (fun k _ => if k = 0 then (⟨1, Except.ok []⟩ : QryResult ℕ ℕ)
          else ⟨1, Except.error 99⟩) 0 0 2
      = some (queryTime (fun k _ => if k = 0 then (⟨1, Except.ok []⟩ : QryResult ℕ ℕ)
              else ⟨1, Except.error 99⟩) 0 1
            + ((fun k _ => if k = 0 then (⟨1, Except.ok []⟩ : QryResult ℕ ℕ)
              else ⟨1, Except.error 99⟩) 1
                (queryTime (fun k _ => if k = 0 then (⟨1, Except.ok []⟩ : QryResult ℕ ℕ)
                  else ⟨1, Except.error 99⟩) 0 1)).dur,
          (List.range' 0 2).map
            (queryTime (fun k _ => if k = 0 then (⟨1, Except.ok []⟩ : QryResult ℕ ℕ)
              else ⟨1, Except.error 99⟩) 0),
          Except.error 99) :=
  ⟨C8_transport_propagation.1 ℕ
      (fun k => if k = 0 then ⟨1, Except.ok 5⟩ else ⟨1, Except.error 99⟩)
      0 0 30000 2 1 (fun _ => 5) 99
      (fun i hi => by interval_cases i; exact ⟨rfl, by decide⟩)
      rfl (by decide) (by omega),
    C8_transport_propagation.2 ℕ ℕ
      (fun k _ => if k = 0 then ⟨1, Except.ok []⟩ else ⟨1, Except.error 99⟩)
      0 0 2 1 99
      (fun i hi => by interval_cases i; rfl)
      rfl (by decide) (by omega)⟩

/-- C9: for `messageCount = k ≥ 1` and `concurrencyLevel = c ≥ 1`,
`testLoadPerformance` splits its `k` generated messages into consecutive
groups of size `Math.ceil(k/c)` (the last possibly smaller): the groups
concatenate in order to the original list, are pairwise disjoint, number
at most `c`, and each group is submitted as a sequence of independent
per-message send calls (one `sendMessage` per element, in order). -/
theorem C9_load_partition (k c : ℕ) (hk : 1 ≤ k) (hc : 1 ≤ c) :
    (testLoadBatches (List.range k) c).flatten = List.range k
    ∧ (testLoadBatches (List.range k) c).length ≤ c
    ∧ (testLoadBatches (List.range k) c).Pairwise List.Disjoint
    ∧ (∀ b ∈ testLoadBatches (List.range k) c,
        0 < b.length ∧ b.length ≤ ceilDiv k c)
    ∧ (∀ b ∈ (testLoadBatches (List.range k) c).dropLast,
        b.length = ceilDiv k c)
    ∧ (∀ (β : Type) (send : ℕ → β) (b : List ℕ),
        sendMessages send b = b.map send) := by
  have hlen : (List.range k).length = k := List.length_range k
  have hbs : 0 < ceilDiv k c := by
    by_contra hcon
    have h0 : ceilDiv k c ≤ 0 := by omega
    have := (ceilDiv_charact k c 0 (by omega)).mp h0
    omega
  have hflat : (testLoadBatches (List.range k) c).flatten = List.range k := by
    unfold testLoadBatches
    rw [hlen]
    exact sliceChunks_flatten (ceilDiv k c) hbs k (List.range k) (by omega)
  refine ⟨hflat, ?_, ?_, ?_, ?_, ?_⟩
  · unfold testLoadBatches
    rw [hlen, sliceChunks_count (ceilDiv k c) hbs k (List.range k) (by omega), hlen]
    rw [ceilDiv_charact k (ceilDiv k c) c hbs, Nat.mul_comm]
    exact (ceilDiv_charact k c (ceilDiv k c) (by omega)).mp (le_refl _)
  · have hnodup : (testLoadBatches (List.range k) c).flatten.Nodup := by
      rw [hflat]; exact List.nodup_range k
    exact (List.nodup_flatten.mp hnodup).2
  · unfold testLoadBatches
    rw [hlen]
    exact (sliceChunks_sizes (ceilDiv k c) hbs k (List.range k) (by omega)).1
  · unfold testLoadBatches
    rw [hlen]
    exact (sliceChunks_sizes (ceilDiv k c) hbs k (List.range k) (by omega)).2
  · intro β send b
    induction b with
    | nil => rfl
    | cons m ms ih => rw [sendMessages, List.map_cons, ih]

/-- C9 (witness): five messages at concurrency three: batch size
`ceil(5/3) = 2`, groups `[0,1], [2,3], [4]`. -/
theorem C9_load_partition_witness :
    (testLoadBatches (List.range 5) 3).flatten = List.range 5
    ∧ (testLoadBatches (List.range 5) 3).length ≤ 3
    ∧ (testLoadBatches (List.range 5) 3).Pairwise List.Disjoint
    ∧ (∀ b ∈ testLoadBatches (List.range 5) 3,
        0 < b.length ∧ b.length ≤ ceilDiv 5 3)
    ∧ (∀ b ∈ (testLoadBatches (List.range 5) 3).dropLast,
        b.length = ceilDiv 5 3)
    ∧ (∀ (β : Type) (send : ℕ → β) (b : List ℕ),
        sendMessages send b = b.map send) :=
  C9_load_partition 5 3 (by omega) (by omega)

/-- C10 (counterexample): the claim that a `timeoutMs` strictly below the
500 ms poll interval makes `waitForFile` perform zero existence checks
and return `false` even when the file exists is false: at
`timeoutMs = 100` the loop bound `100 / 500 = 0.2` still admits the
iteration `i = 0`, so exactly one check runs and the call returns `true`
for a file that exists. -/
theorem C10_counterexample :
    numTries 100 = 1 ∧ waitForFile (fun _ => true) 100 = true := by
  have h : numTries 100 = 1 := by
    unfold numTries
    have hceil : ⌈(100 : ℚ) / 500⌉ = 1 := by
      rw [Int.ceil_eq_iff]
      norm_num
    rw [hceil]
    rfl
  exact ⟨h, by rw [waitForFile, h]; rfl⟩

/-- C10 (amended): `waitForFile` performs zero checks (returning `false`)
only for `timeoutMs ≤ 0`; for `0 < timeoutMs < 500` it performs exactly
one check, returning whether the file exists at the first probe; and in
general it returns `true` exactly when one of its at most
`⌈timeoutMs/500⌉`-many checks finds the file. -/
theorem C10_try_count (ex : ℕ → Bool) (timeoutMs : ℚ) :
    (timeoutMs ≤ 0 → numTries timeoutMs = 0 ∧ waitForFile ex timeoutMs = false)
    ∧ (0 < timeoutMs → timeoutMs < 500 →
        numTries timeoutMs = 1 ∧ waitForFile ex timeoutMs = ex 0)
    ∧ (waitForFile ex timeoutMs = true ↔ ∃ i < numTries timeoutMs, ex i = true) := by
  refine ⟨?_, ?_, ?_⟩
  · intro h
    have h1 : numTries timeoutMs = 0 := by
      unfold numTries
      have hdiv : timeoutMs / 500 ≤ 0 := by
        apply div_nonpos_of_nonpos_of_nonneg h
        norm_num
      have hle : (⌈timeoutMs / 500⌉ : ℤ) ≤ 0 :=
        Int.ceil_le.mpr (by push_cast; exact hdiv)
      omega
    exact ⟨h1, by rw [waitForFile, h1]; rfl⟩
  · intro h0 h500
    have h1 : numTries timeoutMs = 1 := by
      unfold numTries
      have hceil : (⌈timeoutMs / 500⌉ : ℤ) = 1 := by
        rw [Int.ceil_eq_iff]
        constructor
        · have hp : 0 < timeoutMs / 500 := div_pos h0 (by norm_num)
          push_cast
          linarith
        · push_cast
          rw [div_le_one (by norm_num)]
          linarith
      rw [hceil]
      rfl
    refine ⟨h1, ?_⟩
    rw [waitForFile, h1]
    show (if ex 0 then true else waitTries ex 1 0) = ex 0
    rcases hx : ex 0 with - | - <;> simp [hx, waitTries]
  · rw [waitForFile, waitTries_eq_true_iff]
    constructor
    · rintro ⟨j, hj, hex⟩
      exact ⟨j, hj, by simpa using hex⟩
    · rintro ⟨j, hj, hex⟩
      exact ⟨j, hj, by simpa using hex⟩

/-- C10 (witness): the amended behaviour at `timeoutMs = 300` with a file
that never appears: one try, result `false`. -/
theorem C10_try_count_witness :
    numTries 300 = 1 ∧ waitForFile (fun _ => false) 300 = (fun _ => false) 0 :=
  (C10_try_count (fun _ => false) 300).2.1 (by norm_num) (by norm_num)

end AwsPlaywright
